import Mathlib

/-! # Verification of the `mylog` logger (`src/log.go`)

Shallow embedding of the Go package `log` of this repository. Byte slices
and Go strings are `List Char`; a Go `error` is `Option (List Char)`
(`none` is `nil`); the sink `io.Writer` is external and appears as a
function `List Char → Option (List Char)` giving the error of one `Write`
call, while `output` records the byte sequences it passes to it.
-/

namespace GoLog

/-- Go `DEBUG Level = iota` (`Level` is `uint8`). -/
def DEBUG : Nat := 0

/-- Go `INFO`. -/
def INFO : Nat := 1

/-- Go `ERROR`. -/
def ERROR : Nat := 2

/-- Go `Ldate = 1 << iota`. -/
def Ldate : Nat := 1

/-- Go `Ltime`. -/
def Ltime : Nat := 2

/-- Go `Lmicroseconds`. -/
def Lmicroseconds : Nat := 4

/-- Go `Llongfile`. -/
def Llongfile : Nat := 8

/-- Go `Lshortfile`. -/
def Lshortfile : Nat := 16

/-- Go `LUTC`. -/
def LUTC : Nat := 32

/-- Go `LstdFlags = Ldate | Ltime`. -/
def LstdFlags : Nat := Ldate ||| Ltime

/-- Go conversion `int32(x)` of an `int` value: the representative of `x`
modulo `2^32` lying in `[-2^31, 2^31)`. -/
def int32ofInt (x : Int) : Int := (x + 2 ^ 31) % 2 ^ 32 - 2 ^ 31

/-- Go's test `flag & mask != 0` on an `int` flag, for the positive masks
(all `< 2^31`) the source uses: only the low 32 bits of `flag` matter, and
`flag % 2^32` is exactly that unsigned bit pattern. -/
def hasFlag (flag : Int) (mask : Nat) : Bool :=
  ((flag % 2 ^ 32).toNat &&& mask) != 0

/-- The `Logger` struct of the source. The `io.Writer` sink itself is
external: each write-path call below receives the current sink's `Write`
behaviour as a function, and `isDiscard` caches the result of the identity
comparison `w == io.Discard` performed by `SetOutput`. `pfx` models the
`prefix atomic.Pointer[string]` (`none` is the nil pointer of a zero
`Logger`); `flag` the value of the `atomic.Int32`; `minLevel` the stored
`int32` image of the `uint8` level (always in `0..255`). -/
structure Logger where
  pfx : Option (List Char)
  flag : Int
  minLevel : Nat
  isDiscard : Bool
deriving DecidableEq

/-- Go `SetOutput(w)`: stores the sink and `l.isDiscard.Store(w == io.Discard)`.
The sink is external, so the comparison's result is the parameter. -/
def Logger.SetOutput (l : Logger) (wIsDiscard : Bool) : Logger :=
  { l with isDiscard := wIsDiscard }

/-- Go `SetPrefix(prefix)`: atomic pointer store. -/
def Logger.SetPrefix (l : Logger) (s : List Char) : Logger :=
  { l with pfx := some s }

/-- Go `Prefix()`: load of the atomic pointer, `""` when it is nil. -/
def Logger.Prefix (l : Logger) : List Char :=
  match l.pfx with
  | some p => p
  | none => []

/-- Go `SetFlags(flag int)`: `l.flag.Store(int32(flag))`. -/
def Logger.SetFlags (l : Logger) (x : Int) : Logger :=
  { l with flag := int32ofInt x }

/-- Go `Flags()`: `int(l.flag.Load())` (value-preserving on an `int32`). -/
def Logger.Flags (l : Logger) : Int := l.flag

/-- Go `SetLevel(level Level)`: the `uint8` argument (value `v % 256`) is
stored into the `int32` field unchanged. -/
def Logger.SetLevel (l : Logger) (v : Nat) : Logger :=
  { l with minLevel := v % 256 }

/-- Go `Level()`: `Level(l.minLevel.Load())`, an `int32 → uint8` conversion. -/
def Logger.Level (l : Logger) : Nat := l.minLevel % 256

/-- Go `New(out, prefix, flag, level)`: the four setters over a zero `Logger`. -/
def New (wIsDiscard : Bool) (pfx0 : List Char) (flag : Int) (level : Nat) : Logger :=
  (((({ pfx := none, flag := 0, minLevel := 0, isDiscard := false } : Logger).SetOutput
        wIsDiscard).SetPrefix pfx0).SetFlags flag).SetLevel level

/-- One digit byte, Go `byte('0' + d)`. -/
def digitChar (d : Nat) : Char := Char.ofNat (48 + d)

/-- The loop of Go `itoa(buf, i, wid)`. The 20-byte scratch array `b` is
written right to left at index `bp`; `slots = bp + 1` counts the cells from
index 0 through `bp` (initially 20). `none` models a write at index `-1`,
out of bounds. The written digits accumulate in `acc` in output order. -/
def itoaAux : Nat → Nat → Int → List Char → Option (List Char)
  | 0, _, _, _ => none
  | slots + 1, i, wid, acc =>
    if 10 ≤ i ∨ 1 < wid then
      itoaAux slots (i / 10) (wid - 1) (digitChar (i % 10) :: acc)
    else
      some (digitChar i :: acc)

/-- Go `itoa(buf, i, wid)` appends `b[bp:]` to `*buf`; we return the appended
digit bytes (`none` = the scratch-array write would be out of bounds). -/
def itoa (i : Nat) (wid : Int) : Option (List Char) :=
  itoaAux 20 i wid []

/-- The truncation loop of `formatHeader` under `Lshortfile`:
`for i := len(file) - 1; i > 0; i--`, replacing `file` by `file[i+1:]` at
the first `'/'` found scanning right to left; index 0 is never examined. -/
def shortNameAux (file : List Char) : Nat → List Char
  | 0 => file
  | i + 1 => if file[i + 1]? = some '/' then file.drop (i + 2) else shortNameAux file i

/-- The truncated file name the `Lshortfile` branch computes. -/
def shortName (file : List Char) : List Char :=
  shortNameAux file (file.length - 1)

/-- A decomposed Go `time.Time` instant: what `t.Date()`, `t.Clock()` and
`t.Nanosecond()` return. -/
structure Tm where
  year : Nat
  month : Nat
  day : Nat
  hour : Nat
  minute : Nat
  sec : Nat
  nsec : Nat
deriving DecidableEq

/-- A Go `time.Time` as the write path reads it: its local decomposition and
its decomposition after `t.UTC()` (the conversion itself is external). -/
structure GoTime where
  loc : Tm
  utc : Tm
deriving DecidableEq

/-- Go `formatHeader(buf, t, prefix, flag, levelStr, file, line)`: appends the
header to `buf` and returns the new contents. `none` propagates an
out-of-bounds `itoa` write, on which Go would panic. -/
def formatHeader (buf0 : List Char) (t : GoTime) (pfx : List Char) (flag : Int)
    (levelStr : List Char) (file : List Char) (line : Nat) : Option (List Char) := do
  let buf := buf0 ++ pfx ++ levelStr
  let buf ←
    if hasFlag flag (Ldate ||| Ltime ||| Lmicroseconds) then do
      let tm := if hasFlag flag LUTC then t.utc else t.loc
      let buf ←
        if hasFlag flag Ldate then do
          let y ← itoa tm.year 4
          let mo ← itoa tm.month 2
          let d ← itoa tm.day 2
          pure (buf ++ y ++ ['/'] ++ mo ++ ['/'] ++ d ++ [' '])
        else pure buf
      if hasFlag flag (Ltime ||| Lmicroseconds) then do
        let h ← itoa tm.hour 2
        let mi ← itoa tm.minute 2
        let s ← itoa tm.sec 2
        let buf := buf ++ h ++ [':'] ++ mi ++ [':'] ++ s
        let buf ←
          if hasFlag flag Lmicroseconds then do
            let us ← itoa (tm.nsec / 1000) 6
            pure (buf ++ ['.'] ++ us)
          else pure buf
        pure (buf ++ [' '])
      else pure buf
    else pure buf
  if hasFlag flag (Lshortfile ||| Llongfile) then do
    let f := if hasFlag flag Lshortfile then shortName file else file
    let ln ← itoa line (-1)
    pure (buf ++ f ++ [':'] ++ ln ++ [':', ' '])
  else pure buf

/-- A pooled `*[]byte`: its contents (`len`) and its capacity. -/
structure Buf where
  data : List Char
  cap : Nat
deriving DecidableEq

/-- Go `getBuffer()`: `*p = (*p)[:0]` — length reset to zero, capacity kept. -/
def getBuffer (p : Buf) : Buf := { data := [], cap := p.cap }

/-- Go `putBuffer(p)`: `if cap(*p) > 64<<10 { *p = nil }` before returning
the buffer to the pool (a nil slice has length 0 and capacity 0). -/
def putBuffer (p : Buf) : Buf :=
  if 64 * 1024 < p.cap then { data := [], cap := 0 } else p

/-- The `switch level` of `output` choosing the fixed-width level tag. -/
def levelString (level : Nat) : List Char :=
  if level = DEBUG then "[DEBUG] ".toList
  else if level = INFO then "[INFO]  ".toList
  else if level = ERROR then "[ERROR] ".toList
  else "[?????] ".toList

/-- Caller resolution for the `pc == 0` branch of `output` (every call site
in the source passes `pc = 0`): `runtime.Caller(calldepth)` is external, so
its result is a parameter; `none` models `ok == false`, which substitutes
`file = "???"`, `line = 0`. -/
def resolveCaller : Option (List Char × Nat) → List Char × Nat
  | some r => r
  | none => ("???".toList, 0)

/-- Single-space join of already-stringified operands, as `fmt.Sprintln`
style formatting does. -/
def joinSp : List (List Char) → List Char
  | [] => []
  | [a] => a
  | a :: rest => a ++ ' ' :: joinSp rest

/-- Go stdlib `fmt.Appendln(b, v...)` (external to this repository):
operands rendered, single spaces between them, and a newline appended. -/
def appendln (b : List Char) (args : List (List Char)) : List Char :=
  b ++ joinSp args ++ ['\n']

/-- Go `output(level, pc, calldepth, appendOutput) error`. External inputs
appear as parameters: the instant `now`, the caller resolution result, and
the current sink's `Write` behaviour. The result is `some (writes, err)`:
the byte sequences passed to the sink (none when the call is filtered) and
the error `output` returns; `none` propagates an out-of-bounds `itoa`. The
buffer-pool traffic of `getBuffer`/`putBuffer` is modelled separately. -/
def output (l : Logger) (now : GoTime) (callerRes : Option (List Char × Nat))
    (write : List Char → Option (List Char)) (level : Nat)
    (appendOutput : List Char → List Char) :
    Option (List (List Char) × Option (List Char)) :=
  if level < l.minLevel then some ([], none)
  else if l.isDiscard then some ([], none)
  else
    let pfx := l.Prefix
    let flag := l.Flags
    let fl :=
      if hasFlag flag (Lshortfile ||| Llongfile) then resolveCaller callerRes
      else ([], 0)
    match formatHeader [] now pfx flag (levelString level) fl.1 fl.2 with
    | none => none
    | some buf0 =>
      let buf1 := appendOutput buf0
      let buf2 :=
        if buf1.length = 0 ∨ buf1.getLast? ≠ some '\n' then buf1 ++ ['\n'] else buf1
      some ([buf2], write buf2)

/-- Go `Debug(v ...any)`: calls `l.output(DEBUG, 0, 2, ...)` with a
`fmt.Appendln` closure and discards `output`'s error — the source function
declares no return values. We return the observable pair (sink writes,
value handed back to the caller); the second component is constantly `none`
because the source drops the error. -/
def Logger.Debug (l : Logger) (now : GoTime) (callerRes : Option (List Char × Nat))
    (write : List Char → Option (List Char)) (args : List (List Char)) :
    Option (List (List Char) × Option (List Char)) :=
  (output l now callerRes write DEBUG fun b => appendln b args).map fun r => (r.1, none)

/-- Go `Info(v ...any)`: like `Debug`, at level `INFO`, error discarded. -/
def Logger.Info (l : Logger) (now : GoTime) (callerRes : Option (List Char × Nat))
    (write : List Char → Option (List Char)) (args : List (List Char)) :
    Option (List (List Char) × Option (List Char)) :=
  (output l now callerRes write INFO fun b => appendln b args).map fun r => (r.1, none)

/-- Go `Error(v ...any)`: like `Debug`, at level `ERROR`, error discarded. -/
def Logger.Error (l : Logger) (now : GoTime) (callerRes : Option (List Char × Nat))
    (write : List Char → Option (List Char)) (args : List (List Char)) :
    Option (List (List Char) × Option (List Char)) :=
  (output l now callerRes write ERROR fun b => appendln b args).map fun r => (r.1, none)

/-- Decimal digit count of `i` (via Mathlib's `Nat.digits`), at least 1. -/
def numDigits (i : Nat) : Nat :=
  if i = 0 then 1 else (Nat.digits 10 i).length

/-- The decimal digit characters of `i`, most significant first. -/
def digitsChars (i : Nat) : List Char :=
  if i = 0 then ['0'] else ((Nat.digits 10 i).reverse).map digitChar

/-- The number an ASCII digit string denotes in base 10. -/
def decValue (l : List Char) : Nat :=
  l.foldl (fun a c => 10 * a + (c.toNat - 48)) 0

/-- Bounds under which a rendered time cannot overflow `itoa`'s scratch
array: every numeric field fits a nonnegative Go `int`. -/
abbrev TmOK (t : Tm) : Prop :=
  t.year < 2 ^ 63 ∧ t.month < 2 ^ 63 ∧ t.day < 2 ^ 63 ∧ t.hour < 2 ^ 63 ∧
    t.minute < 2 ^ 63 ∧ t.sec < 2 ^ 63 ∧ t.nsec < 2 ^ 63

/-- Both decompositions of an instant are in `int` range. -/
abbrev GoTimeOK (t : GoTime) : Prop := TmOK t.loc ∧ TmOK t.utc

/-- A resolved caller line number is in `int` range. -/
abbrev CallerOK : Option (List Char × Nat) → Prop
  | some r => r.2 < 2 ^ 63
  | none => True

/-- A sink whose `Write` always succeeds. -/
def wOk : List Char → Option (List Char) := fun _ => none

/-- A sink whose `Write` always fails with error `"E"`. -/
def wFail : List Char → Option (List Char) := fun _ => some ['E']

/-- The instant 2024/01/02 03:04:05 (local = UTC). -/
def t2024 : GoTime :=
  { loc := ⟨2024, 1, 2, 3, 4, 5, 0⟩, utc := ⟨2024, 1, 2, 3, 4, 5, 0⟩ }

/-- A plain logger: no prefix, no flags, minimum level `DEBUG`, real sink. -/
def plain : Logger := New false [] 0 DEBUG

/-- The end-to-end example logger `New(buf, "APP ", LstdFlags, INFO)`. -/
def appLogger : Logger := New false "APP ".toList (LstdFlags : Int) INFO

/-! ### Lemmas about decimal digit strings -/

theorem numDigits_pos (i : Nat) : 1 ≤ numDigits i := by
  unfold numDigits
  split
  · exact le_refl 1
  · exact List.length_pos.mpr (Nat.digits_ne_nil_iff_ne_zero.mpr (by assumption))

theorem numDigits_lt10 {i : Nat} (h : i < 10) : numDigits i = 1 := by
  unfold numDigits
  split
  · rfl
  · rw [Nat.digits_of_lt 10 i (by assumption) h]; rfl

theorem numDigits_ge10 {i : Nat} (h : 10 ≤ i) : numDigits i = numDigits (i / 10) + 1 := by
  have hi : i ≠ 0 := by omega
  have hq : i / 10 ≠ 0 := by
    have : 0 < i / 10 := Nat.div_pos h (by norm_num)
    omega
  unfold numDigits
  rw [if_neg hi, if_neg hq, Nat.digits_def' (by norm_num : (1 : ℕ) < 10) (by omega)]
  simp

theorem digitsChars_lt10 {i : Nat} (h : i < 10) : digitsChars i = [digitChar i] := by
  unfold digitsChars
  split
  · subst_vars; rfl
  · rw [Nat.digits_of_lt 10 i (by assumption) h]; rfl

theorem digitsChars_ge10 {i : Nat} (h : 10 ≤ i) :
    digitsChars i = digitsChars (i / 10) ++ [digitChar (i % 10)] := by
  have hi : i ≠ 0 := by omega
  have hq : i / 10 ≠ 0 := by
    have : 0 < i / 10 := Nat.div_pos h (by norm_num)
    omega
  unfold digitsChars
  rw [if_neg hi, if_neg hq, Nat.digits_def' (by norm_num : (1 : ℕ) < 10) (by omega)]
  simp

theorem digitsChars_length (i : Nat) : (digitsChars i).length = numDigits i := by
  unfold digitsChars numDigits
  split
  · rfl
  · simp

theorem numDigits_le_of_lt_pow {i d : Nat} (hd : 0 < d) (h : i < 10 ^ d) :
    numDigits i ≤ d := by
  by_cases hi : i = 0
  · subst hi; unfold numDigits; rw [if_pos rfl]; omega
  · unfold numDigits
    rw [if_neg hi]
    by_contra hcon
    push_neg at hcon
    have h1 : 10 ^ (Nat.digits 10 i).length ≤ 10 * i :=
      Nat.base_pow_length_digits_le 10 i (by norm_num) hi
    have h2 : 10 * i < 10 ^ (d + 1) := by
      rw [pow_succ]
      omega
    have h3 : 10 ^ (d + 1) ≤ 10 ^ (Nat.digits 10 i).length :=
      Nat.pow_le_pow_right (by norm_num) (by omega)
    omega

theorem digitChar_toNat {d : Nat} (h : d < 10) : (digitChar d).toNat = 48 + d := by
  interval_cases d <;> decide

theorem decValue_concat (l : List Char) (c : Char) :
    decValue (l ++ [c]) = 10 * decValue l + (c.toNat - 48) := by
  simp [decValue, List.foldl_append]

theorem decValue_digitsChars (i : Nat) : decValue (digitsChars i) = i := by
  induction i using Nat.strong_induction_on with
  | _ i ih =>
    by_cases h : i < 10
    · rw [digitsChars_lt10 h]
      simp only [decValue, List.foldl_cons, List.foldl_nil, digitChar_toNat h]
      omega
    · push_neg at h
      have hq : i / 10 < i := Nat.div_lt_self (by omega) (by norm_num)
      rw [digitsChars_ge10 h, decValue_concat, ih (i / 10) hq,
        digitChar_toNat (Nat.mod_lt _ (by norm_num))]
      omega

/-! ### Correctness and in-bounds execution of `itoa` -/

theorem itoaAux_eq : ∀ (slots i : Nat) (wid : Int) (acc : List Char),
    max (numDigits i) (max wid 1).toNat ≤ slots →
    itoaAux slots i wid acc =
      some (List.replicate ((max wid 1).toNat - numDigits i) '0' ++ (digitsChars i ++ acc))
  | 0, i, _, _, h => by
    have := numDigits_pos i
    omega
  | slots + 1, i, wid, acc, h => by
    rw [itoaAux]
    by_cases hc : 10 ≤ i ∨ 1 < wid
    · rw [if_pos hc]
      have hrel : max (numDigits (i / 10)) (max (wid - 1) 1).toNat + 1 =
          max (numDigits i) (max wid 1).toNat := by
        rcases Classical.em (10 ≤ i) with h10 | h10
        · have hnd := numDigits_ge10 h10
          have := numDigits_pos (i / 10)
          omega
        · have hi : i < 10 := by omega
          have hw : 1 < wid := by tauto
          have h1 := numDigits_lt10 hi
          have h2 : numDigits (i / 10) = 1 := by
            rw [Nat.div_eq_of_lt hi]; exact numDigits_lt10 (by norm_num)
          omega
      rw [itoaAux_eq slots (i / 10) (wid - 1) (digitChar (i % 10) :: acc) (by omega)]
      rcases Classical.em (10 ≤ i) with h10 | h10
      · have hnd := numDigits_ge10 h10
        have hdc := digitsChars_ge10 h10
        have hrep : (max (wid - 1) 1).toNat - numDigits (i / 10) =
            (max wid 1).toNat - numDigits i := by
          have := numDigits_pos (i / 10)
          omega
        rw [hrep, hdc]
        simp
      · have hi : i < 10 := by omega
        have hw : 1 < wid := by tauto
        have h1 := numDigits_lt10 hi
        have h2 : i / 10 = 0 := Nat.div_eq_of_lt hi
        have h3 : i % 10 = i := Nat.mod_eq_of_lt hi
        have h4 : digitsChars (i / 10) = [digitChar 0] := by
          rw [h2]; exact digitsChars_lt10 (by norm_num)
        have h5 : numDigits (i / 10) = 1 := by rw [h2]; exact numDigits_lt10 (by norm_num)
        have h8 : digitChar 0 = '0' := by decide
        have h6 : (max (wid - 1) 1).toNat - numDigits (i / 10) = (max wid 1).toNat - 2 := by
          omega
        have h7 : (max wid 1).toNat - numDigits i = ((max wid 1).toNat - 2) + 1 := by
          omega
        rw [digitsChars_lt10 hi, h4, h3, h8, h6, h7, List.replicate_succ']
        simp [List.append_assoc]
    · rw [if_neg hc]
      push_neg at hc
      obtain ⟨h10, hw⟩ := hc
      have h1 := numDigits_lt10 h10
      have h2 : (max wid 1).toNat = 1 := by omega
      rw [digitsChars_lt10 h10, h1, h2]
      simp

theorem itoa_eq (i : Nat) (wid : Int)
    (h : max (numDigits i) (max wid 1).toNat ≤ 20) :
    itoa i wid = some (List.replicate ((max wid 1).toNat - numDigits i) '0' ++ digitsChars i) := by
  have := itoaAux_eq 20 i wid [] h
  simpa [itoa] using this

/-! ### The `Lshortfile` truncation loop -/

theorem shortNameAux_no (file : List Char) :
    ∀ n, (∀ j, 1 ≤ j → j ≤ n → file[j]? ≠ some '/') → shortNameAux file n = file
  | 0, _ => rfl
  | n + 1, h => by
    rw [shortNameAux, if_neg (h (n + 1) (by omega) (by omega))]
    exact shortNameAux_no file n fun j h1 h2 => h j h1 (by omega)

theorem shortName_no_slash {file : List Char} (h : ∀ c ∈ file.drop 1, c ≠ '/') :
    shortName file = file := by
  apply shortNameAux_no
  intro j h1 _ hj
  have hd : (file.drop 1)[j - 1]? = some '/' := by
    rw [List.getElem?_drop]
    have he : 1 + (j - 1) = j := by omega
    rw [he]; exact hj
  exact h '/' (List.getElem?_mem hd) rfl

theorem shortNameAux_append {a b : List Char} (ha : a ≠ []) (hb : '/' ∉ b) :
    ∀ k, k ≤ b.length → shortNameAux (a ++ '/' :: b) (a.length + k) = b := by
  intro k
  induction k with
  | zero =>
    intro _
    obtain ⟨m, hm⟩ : ∃ m, a.length = m + 1 := by
      cases a with
      | nil => exact absurd rfl ha
      | cons x xs => exact ⟨xs.length, by simp⟩
    rw [Nat.add_zero, hm, shortNameAux]
    have hget : (a ++ '/' :: b)[m + 1]? = some '/' := by
      rw [← hm, List.getElem?_append_right (le_refl _)]
      simp
    rw [if_pos hget]
    have he : m + 2 = a.length + 1 := by omega
    rw [he]
    simp
  | succ k ih =>
    intro hk
    have he : a.length + (k + 1) = (a.length + k) + 1 := by ring
    rw [he]
    obtain ⟨m, hm⟩ : ∃ m, a.length + k = m := ⟨a.length + k, rfl⟩
    rw [hm, shortNameAux]
    have hget : (a ++ '/' :: b)[m + 1]? ≠ some '/' := by
      rw [List.getElem?_append_right (by omega)]
      have he2 : m + 1 - a.length = k + 1 := by omega
      rw [he2, List.getElem?_cons_succ]
      intro hcon
      exact hb (List.getElem?_mem hcon)
    rw [if_neg hget, ← hm]
    exact ih (by omega)

theorem shortName_append {a b : List Char} (ha : a ≠ []) (hb : '/' ∉ b) :
    shortName (a ++ '/' :: b) = b := by
  unfold shortName
  have hlen : (a ++ '/' :: b).length - 1 = a.length + b.length := by
    simp
  rw [hlen]
  exact shortNameAux_append ha hb b.length (le_refl _)

/-! ### The level tag -/

theorem levelString_cases (level : Nat) :
    levelString level = "[DEBUG] ".toList ∨ levelString level = "[INFO]  ".toList ∨
      levelString level = "[ERROR] ".toList ∨ levelString level = "[?????] ".toList := by
  unfold levelString
  split
  · exact Or.inl rfl
  · split
    · exact Or.inr (Or.inl rfl)
    · split
      · exact Or.inr (Or.inr (Or.inl rfl))
      · exact Or.inr (Or.inr (Or.inr rfl))

theorem levelString_getLast (level : Nat) :
    (levelString level).getLast? = some ' ' ∧ levelString level ≠ [] := by
  rcases levelString_cases level with h | h | h | h <;> rw [h] <;> exact ⟨rfl, by decide⟩

/-! ### The header never fails to format, and never ends in a newline -/

theorem last_append {α : Type} (X : List α) {l : List α} {c : α}
    (h : l.getLast? = some c) : (X ++ l).getLast? = some c := by
  rw [List.getLast?_append, h]
  rfl

theorem last_cons {α : Type} (a : α) {l : List α} {c : α}
    (h : l.getLast? = some c) : (a :: l).getLast? = some c := by
  cases l with
  | nil => cases h
  | cons b t => rw [List.getLast?_cons_cons]; exact h

theorem itoa_isSome (i : Nat) (wid : Int) (hi : i < 2 ^ 63)
    (hw : (max wid 1).toNat ≤ 6) : ∃ o, itoa i wid = some o := by
  refine ⟨_, itoa_eq i wid ?_⟩
  have h1 : numDigits i ≤ 19 :=
    numDigits_le_of_lt_pow (by norm_num) (lt_trans hi (by norm_num))
  omega

theorem formatHeader_some (buf0 : List Char) (t : GoTime) (pfx : List Char) (flag : Int)
    (levelStr : List Char) (file : List Char) (line : Nat)
    (ht : GoTimeOK t) (hline : line < 2 ^ 63) :
    ∃ out, formatHeader buf0 t pfx flag levelStr file line = some out ∧
      (out = buf0 ++ pfx ++ levelStr ∨ out.getLast? = some ' ') := by
  obtain ⟨hl, hu⟩ := ht
  obtain ⟨y1, hy1⟩ := itoa_isSome t.loc.year 4 hl.1 (by norm_num)
  obtain ⟨y2, hy2⟩ := itoa_isSome t.utc.year 4 hu.1 (by norm_num)
  obtain ⟨mo1, hmo1⟩ := itoa_isSome t.loc.month 2 hl.2.1 (by norm_num)
  obtain ⟨mo2, hmo2⟩ := itoa_isSome t.utc.month 2 hu.2.1 (by norm_num)
  obtain ⟨d1, hd1⟩ := itoa_isSome t.loc.day 2 hl.2.2.1 (by norm_num)
  obtain ⟨d2, hd2⟩ := itoa_isSome t.utc.day 2 hu.2.2.1 (by norm_num)
  obtain ⟨h1, hh1⟩ := itoa_isSome t.loc.hour 2 hl.2.2.2.1 (by norm_num)
  obtain ⟨h2, hh2⟩ := itoa_isSome t.utc.hour 2 hu.2.2.2.1 (by norm_num)
  obtain ⟨mi1, hmi1⟩ := itoa_isSome t.loc.minute 2 hl.2.2.2.2.1 (by norm_num)
  obtain ⟨mi2, hmi2⟩ := itoa_isSome t.utc.minute 2 hu.2.2.2.2.1 (by norm_num)
  obtain ⟨s1, hs1⟩ := itoa_isSome t.loc.sec 2 hl.2.2.2.2.2.1 (by norm_num)
  obtain ⟨s2, hs2⟩ := itoa_isSome t.utc.sec 2 hu.2.2.2.2.2.1 (by norm_num)
  obtain ⟨us1, hus1⟩ := itoa_isSome (t.loc.nsec / 1000) 6
    (lt_of_le_of_lt (Nat.div_le_self _ _) hl.2.2.2.2.2.2) (by norm_num)
  obtain ⟨us2, hus2⟩ := itoa_isSome (t.utc.nsec / 1000) 6
    (lt_of_le_of_lt (Nat.div_le_self _ _) hu.2.2.2.2.2.2) (by norm_num)
  obtain ⟨ln, hln⟩ := itoa_isSome line (-1) hline (by norm_num)
  cases hU : hasFlag flag LUTC <;>
    cases hA : hasFlag flag (Ldate ||| Ltime ||| Lmicroseconds) <;>
    cases hD : hasFlag flag Ldate <;>
    cases hT : hasFlag flag (Ltime ||| Lmicroseconds) <;>
    cases hM : hasFlag flag Lmicroseconds <;>
    cases hF : hasFlag flag (Lshortfile ||| Llongfile) <;>
    simp [formatHeader, hU, hA, hD, hT, hM, hF, hy1, hy2, hmo1, hmo2, hd1, hd2,
      hh1, hh2, hmi1, hmi2, hs1, hs2, hus1, hus2, hln] <;>
    first
      | trivial
      | ((repeat (first | rfl | apply last_append | apply last_cons)); done)

/-! ### The write path -/

theorem output_gated (l : Logger) (now : GoTime) (cr : Option (List Char × Nat))
    (write : List Char → Option (List Char)) (level : Nat) (ao : List Char → List Char)
    (h : level < l.minLevel ∨ l.isDiscard = true) :
    output l now cr write level ao = some ([], none) := by
  unfold output
  rcases h with h | h
  · rw [if_pos h]
  · by_cases h2 : level < l.minLevel
    · rw [if_pos h2]
    · rw [if_neg h2, if_pos h]

theorem output_pass (l : Logger) (now : GoTime) (cr : Option (List Char × Nat))
    (write : List Char → Option (List Char)) (level : Nat) (ao : List Char → List Char)
    (ht : GoTimeOK now) (hc : CallerOK cr)
    (h1 : ¬level < l.minLevel) (h2 : l.isDiscard = false) :
    ∃ hdr buf2,
      hdr.getLast? = some ' ' ∧
      buf2 = (if (ao hdr).length = 0 ∨ (ao hdr).getLast? ≠ some '\n'
              then ao hdr ++ ['\n'] else ao hdr) ∧
      output l now cr write level ao = some ([buf2], write buf2) := by
  have hline : (if hasFlag l.Flags (Lshortfile ||| Llongfile) = true
      then resolveCaller cr else ([], 0)).2 < 2 ^ 63 := by
    split
    · cases cr with
      | none => norm_num [resolveCaller]
      | some r => exact hc
    · norm_num
  obtain ⟨out, hout, hch⟩ := formatHeader_some [] now l.Prefix l.Flags (levelString level)
    (if hasFlag l.Flags (Lshortfile ||| Llongfile) = true then resolveCaller cr else ([], 0)).1
    (if hasFlag l.Flags (Lshortfile ||| Llongfile) = true then resolveCaller cr else ([], 0)).2
    ht hline
  have hlast : out.getLast? = some ' ' := by
    rcases hch with h | h
    · rw [h]
      simp only [List.nil_append]
      exact last_append _ (levelString_getLast level).1
    · exact h
  refine ⟨out, _, hlast, rfl, ?_⟩
  unfold output
  rw [if_neg h1, h2, if_neg Bool.false_ne_true]
  simp only [hout]

theorem appendln_getLast (b : List Char) (args : List (List Char)) :
    (appendln b args).getLast? = some '\n' := by
  unfold appendln
  exact List.getLast?_concat _

theorem emit_shape (l : Logger) (now : GoTime) (cr : Option (List Char × Nat))
    (write : List Char → Option (List Char)) (level : Nat) (args : List (List Char))
    (ht : GoTimeOK now) (hc : CallerOK cr)
    (h1 : ¬level < l.minLevel) (h2 : l.isDiscard = false) :
    ∃ hdr, hdr.getLast? = some ' ' ∧
      output l now cr write level (fun b => appendln b args) =
        some ([hdr ++ joinSp args ++ ['\n']], write (hdr ++ joinSp args ++ ['\n'])) := by
  obtain ⟨hdr, buf2, hlast, hbuf2, hout⟩ :=
    output_pass l now cr write level (fun b => appendln b args) ht hc h1 h2
  have hb2 : buf2 = hdr ++ joinSp args ++ ['\n'] := by
    rw [hbuf2]
    rw [if_neg]
    · rfl
    · push_neg
      refine ⟨?_, ?_⟩
      · simp [appendln]
      · exact appendln_getLast hdr args
  rw [hb2] at hout
  exact ⟨hdr, hlast, hout⟩

theorem itoa_unpadded {line : Nat} (h : line < 2 ^ 63) :
    itoa line (-1) = some (digitsChars line) := by
  have h1 : numDigits line ≤ 19 :=
    numDigits_le_of_lt_pow (by norm_num) (lt_trans h (by norm_num))
  have h2 := numDigits_pos line
  have h3 : (max (-1 : Int) 1).toNat = 1 := by decide
  have := itoa_eq line (-1) (by omega)
  rw [h3] at this
  have h4 : 1 - numDigits line = 0 := by omega
  rw [h4] at this
  simpa using this

theorem output_newlines (l : Logger) (now : GoTime) (cr : Option (List Char × Nat))
    (write : List Char → Option (List Char)) (level : Nat) (args : List (List Char))
    (ht : GoTimeOK now) (hc : CallerOK cr) :
    ∀ ws err, output l now cr write level (fun b => appendln b args) = some (ws, err) →
      ∀ b ∈ ws, b ≠ [] ∧ b.getLast? = some '\n' ∧
        ((joinSp args).getLast? ≠ some '\n' → b.dropLast.getLast? ≠ some '\n') := by
  intro ws err hout b hb
  by_cases h1 : level < l.minLevel
  · rw [output_gated l now cr write level _ (Or.inl h1)] at hout
    injection hout with h
    injection h with h _
    subst h
    cases hb
  · cases h2 : l.isDiscard with
    | true =>
      rw [output_gated l now cr write level _ (Or.inr h2)] at hout
      injection hout with h
      injection h with h _
      subst h
      cases hb
    | false =>
      obtain ⟨hdr, hlast, hsh⟩ := emit_shape l now cr write level args ht hc h1 h2
      rw [hsh] at hout
      injection hout with h
      injection h with h _
      subst h
      rw [List.mem_singleton] at hb
      subst hb
      refine ⟨by simp, List.getLast?_concat _, ?_⟩
      intro hj
      rw [List.dropLast_concat]
      cases hjs : joinSp args with
      | nil =>
        rw [List.append_nil, hlast]
        intro hcon
        injection hcon with hcon
        cases hcon
      | cons c rest =>
        rw [List.getLast?_append_of_ne_nil _ (by simp), ← hjs]
        exact hj

/-! ### The claims -/

/-- C1 (amended): the internal write path `output` returns an error that is
non-nil iff the single sink write it performs failed, and it never retries
(at most one write per call); but the public emitters `Debug`, `Info` and
`Error` declare no return values in the source and discard `output`'s
error, so their callers observe no error at all; a prior failure leaves
the logger unchanged (the result depends only on the inputs). -/
theorem emitters_discard_sink_error (l : Logger) (now : GoTime)
    (cr : Option (List Char × Nat)) (write : List Char → Option (List Char))
    (level : Nat) (ao : List Char → List Char) (args : List (List Char))
    (ht : GoTimeOK now) (hc : CallerOK cr) :
    (∃ ws err, output l now cr write level ao = some (ws, err) ∧
      ws.length ≤ 1 ∧ (err ≠ none ↔ ∃ b ∈ ws, write b ≠ none)) ∧
    (∀ r, l.Debug now cr write args = some r → r.2 = none) ∧
    (∀ r, l.Info now cr write args = some r → r.2 = none) ∧
    (∀ r, l.Error now cr write args = some r → r.2 = none) := by
  have hdrop : ∀ (lv : Nat) (r : List (List Char) × Option (List Char)),
      (output l now cr write lv fun b => appendln b args).map
        (fun p => (p.1, (none : Option (List Char)))) = some r → r.2 = none := by
    intro lv r hr
    rcases houtput : output l now cr write lv fun b => appendln b args with _ | p
    · rw [houtput] at hr; cases hr
    · rw [houtput] at hr
      simp only [Option.map_some'] at hr
      injection hr with hr
      rw [← hr]
  refine ⟨?_, fun r hr => hdrop DEBUG r hr, fun r hr => hdrop INFO r hr,
    fun r hr => hdrop ERROR r hr⟩
  by_cases h1 : level < l.minLevel
  · exact ⟨[], none, output_gated l now cr write level ao (Or.inl h1), by simp, by simp⟩
  · cases h2 : l.isDiscard with
    | true =>
      exact ⟨[], none, output_gated l now cr write level ao (Or.inr h2), by simp, by simp⟩
    | false =>
      obtain ⟨hdr, buf2, _, _, hout⟩ := output_pass l now cr write level ao ht hc h1 h2
      exact ⟨[buf2], write buf2, hout, by simp, by simp⟩

/-- C1 counterexample to the claim as stated: on a logger whose sink write
fails (`wFail` returns the error `"E"` for every write), `Debug` performs the
write — the sink receives the line and reports failure — yet the value the
caller gets back carries no error (`none`), because the source discards
`output`'s error and `Debug` returns nothing. -/
theorem debug_error_dropped_cex :
    plain.Debug t2024 none wFail [['x']] = some (["[DEBUG] x\n".toList], none) ∧
    wFail "[DEBUG] x\n".toList = some ['E'] :=
  ⟨rfl, rfl⟩

/-- C1 witness: the amended claim at a concrete logger, instant and sink. -/
theorem emitters_discard_sink_error_witness :
    (∃ ws err, output plain t2024 none wFail 1 id = some (ws, err) ∧
      ws.length ≤ 1 ∧ (err ≠ none ↔ ∃ b ∈ ws, wFail b ≠ none)) ∧
    (∀ r, plain.Debug t2024 none wFail [['x']] = some r → r.2 = none) ∧
    (∀ r, plain.Info t2024 none wFail [['x']] = some r → r.2 = none) ∧
    (∀ r, plain.Error t2024 none wFail [['x']] = some r → r.2 = none) :=
  emitters_discard_sink_error plain t2024 none wFail 1 id [['x']] (by decide) trivial

/-- C2 (amended): every byte sequence an emitter writes to the sink is
nonempty and ends in `'\n'`; it ends in exactly one `'\n'` whenever the
space-joined stringified arguments do not themselves end in `'\n'` (the
final `fmt.Appendln` newline is then the only trailing one, and the header
never ends in a newline). When an argument's rendering already ends in a
newline the written line carries that newline plus the appended one. -/
theorem trailing_newline_amended (l : Logger) (now : GoTime)
    (cr : Option (List Char × Nat)) (write : List Char → Option (List Char))
    (args : List (List Char)) (ht : GoTimeOK now) (hc : CallerOK cr) :
    ∀ ws err,
      (l.Debug now cr write args = some (ws, err) ∨
       l.Info now cr write args = some (ws, err) ∨
       l.Error now cr write args = some (ws, err)) →
      ∀ b ∈ ws, b ≠ [] ∧ b.getLast? = some '\n' ∧
        ((joinSp args).getLast? ≠ some '\n' → b.dropLast.getLast? ≠ some '\n') := by
  have key : ∀ (lv : Nat) (ws : List (List Char)) (err : Option (List Char)),
      (output l now cr write lv fun b => appendln b args).map
        (fun p => (p.1, (none : Option (List Char)))) = some (ws, err) →
      ∀ b ∈ ws, b ≠ [] ∧ b.getLast? = some '\n' ∧
        ((joinSp args).getLast? ≠ some '\n' → b.dropLast.getLast? ≠ some '\n') := by
    intro lv ws err hr
    rcases houtput : output l now cr write lv fun b => appendln b args with _ | p
    · rw [houtput] at hr; cases hr
    · rw [houtput] at hr
      simp only [Option.map_some'] at hr
      injection hr with hr
      injection hr with hfst hsnd
      subst hfst
      exact output_newlines l now cr write lv args ht hc p.1 p.2 (by rw [houtput])
  intro ws err hdisj
  rcases hdisj with h | h | h
  · exact key DEBUG ws err h
  · exact key INFO ws err h
  · exact key ERROR ws err h

/-- C2 counterexample to the claim as stated: with the single argument
`"hi\n"` (whose rendering already ends in a newline), `Info` writes
`"[INFO]  hi\n\n"` — the sink line ends in TWO newlines, because
`fmt.Appendln` always appends one and `output` only ever adds a missing
newline, never removes one. -/
theorem double_newline_cex :
    plain.Info t2024 none wOk [['h', 'i', '\n']] =
      some (["[INFO]  hi\n\n".toList], none) ∧
    "[INFO]  hi\n\n".toList.getLast? = some '\n' ∧
    "[INFO]  hi\n\n".toList.dropLast.getLast? = some '\n' :=
  ⟨rfl, rfl, rfl⟩

/-- C2 witness: the amended claim evaluated at a concrete call whose
arguments do not end in a newline: the written line ends in exactly one. -/
theorem trailing_newline_amended_witness :
    "[DEBUG] hi\n".toList ≠ [] ∧ "[DEBUG] hi\n".toList.getLast? = some '\n' ∧
      ((joinSp [['h', 'i']]).getLast? ≠ some '\n' →
        "[DEBUG] hi\n".toList.dropLast.getLast? ≠ some '\n') :=
  trailing_newline_amended plain t2024 none wOk [['h', 'i']] (by decide) trivial
    ["[DEBUG] hi\n".toList] none (Or.inl rfl) "[DEBUG] hi\n".toList (by simp)

/-- C3: the end-to-end example. `New(buf, "APP ", LstdFlags, INFO)` then
`Info("started")` at the instant 2024/01/02 03:04:05 hands the sink exactly
the bytes `"APP [INFO]  2024/01/02 03:04:05 started\n"`: prefix, 8-byte
level tag, zero-padded date, space, zero-padded time, space, message,
newline, in that order. -/
theorem info_end_to_end :
    appLogger.Info t2024 none wOk ["started".toList] =
      some (["APP [INFO]  2024/01/02 03:04:05 started\n".toList], none) :=
  rfl

/-- C4: whenever the call's level is below the logger's minimum level or
the discard hint is set, `output` returns success having written nothing;
the result is `some ([], none)` for EVERY time value, caller resolution,
sink and message closure — with no boundedness hypotheses on the time or
line number, which shows the header formatter and the buffer are never
consulted (both gates fire before any rendering). -/
theorem gated_call_is_noop (l : Logger) (now : GoTime) (cr : Option (List Char × Nat))
    (write : List Char → Option (List Char)) (level : Nat) (ao : List Char → List Char)
    (h : level < l.minLevel ∨ l.isDiscard = true) :
    output l now cr write level ao = some ([], none) :=
  output_gated l now cr write level ao h

/-- C4 witness: a `DEBUG` call on a logger with minimum level `ERROR`, with
a failing sink, writes nothing and returns nil. -/
theorem gated_call_is_noop_witness :
    output (New false [] 0 ERROR) t2024 none wFail DEBUG id = some ([], none) :=
  gated_call_is_noop (New false [] 0 ERROR) t2024 none wFail DEBUG id (Or.inl (by decide))

/-- C5: each setter round-trips with its getter: `SetFlags x` then `Flags`
returns `x` for every `x` in `int32` range (which includes every valid
combination of the six defined flag bits); `SetPrefix s` then `Prefix`
returns `s` for every string; `SetLevel v` then `Level` returns `v` for
every `uint8` value. -/
theorem config_round_trip (l : Logger) (x : Int) (s : List Char) (v : Nat)
    (hx1 : -(2 ^ 31) ≤ x) (hx2 : x < 2 ^ 31) (hv : v < 256) :
    (l.SetFlags x).Flags = x ∧ (l.SetPrefix s).Prefix = s ∧ (l.SetLevel v).Level = v := by
  refine ⟨?_, rfl, ?_⟩
  · show int32ofInt x = x
    unfold int32ofInt
    omega
  · show v % 256 % 256 = v
    omega

/-- C5 witness: the round trip at the all-bits flag value 63, prefix `"p"`
and level `ERROR`. -/
theorem config_round_trip_witness :
    (plain.SetFlags 63).Flags = 63 ∧ (plain.SetPrefix "p".toList).Prefix = "p".toList ∧
      (plain.SetLevel 2).Level = 2 :=
  config_round_trip plain 63 "p".toList 2 (by norm_num) (by norm_num) (by norm_num)

/-- C6 (amended): under the short-file flag the rendered path is the suffix
after the last `'/'` occurring at a position strictly greater than 0 (for
`a ++ "/" ++ b` with `a` nonempty and `b` separator-free this is `b`, so
`"/a/b/c.ext"` renders `"c.ext"`); a path with no separator past its first
character is rendered unchanged; under the long-file flag the path is
rendered verbatim; in all cases the path is followed by `':'`, the unpadded
decimal line number, and `": "`. -/
theorem file_rendering_amended (buf0 pfx levelStr : List Char) (t : GoTime)
    (a b file : List Char) (line : Nat)
    (ha : a ≠ []) (hb : '/' ∉ b) (hfile : ∀ c ∈ file.drop 1, c ≠ '/')
    (hline : line < 2 ^ 63) :
    formatHeader buf0 t pfx (Lshortfile : Int) levelStr (a ++ '/' :: b) line =
      some (buf0 ++ pfx ++ levelStr ++ b ++ [':'] ++ digitsChars line ++ [':', ' ']) ∧
    formatHeader buf0 t pfx (Lshortfile : Int) levelStr file line =
      some (buf0 ++ pfx ++ levelStr ++ file ++ [':'] ++ digitsChars line ++ [':', ' ']) ∧
    formatHeader buf0 t pfx (Llongfile : Int) levelStr (a ++ '/' :: b) line =
      some (buf0 ++ pfx ++ levelStr ++ (a ++ '/' :: b) ++ [':'] ++ digitsChars line ++ [':', ' ']) ∧
    decValue (digitsChars line) = line := by
  have hA : hasFlag (Lshortfile : Int) (Ldate ||| Ltime ||| Lmicroseconds) = false := by decide
  have hF : hasFlag (Lshortfile : Int) (Lshortfile ||| Llongfile) = true := by decide
  have hS : hasFlag (Lshortfile : Int) Lshortfile = true := by decide
  have hA2 : hasFlag (Llongfile : Int) (Ldate ||| Ltime ||| Lmicroseconds) = false := by decide
  have hF2 : hasFlag (Llongfile : Int) (Lshortfile ||| Llongfile) = true := by decide
  have hS2 : hasFlag (Llongfile : Int) Lshortfile = false := by decide
  have hitoa := itoa_unpadded hline
  refine ⟨?_, ?_, ?_, decValue_digitsChars line⟩
  · simp [formatHeader, hA, hF, hS, hitoa, shortName_append ha hb]
  · simp [formatHeader, hA, hF, hS, hitoa, shortName_no_slash hfile]
  · simp [formatHeader, hA2, hF2, hS2, hitoa]

/-- C6 counterexample to the claim as stated: for the path `"/c.ext"`,
whose only separator is its first character, the short-file flag renders
the path UNCHANGED — `"[INFO]  /c.ext:7: "` — not truncated to the
substring `"c.ext"` after the last separator, because the scan loop never
examines index 0. -/
theorem leading_slash_not_truncated_cex :
    formatHeader [] t2024 [] (Lshortfile : Int) "[INFO]  ".toList "/c.ext".toList 7 =
      some "[INFO]  /c.ext:7: ".toList ∧
    "[INFO]  /c.ext:7: ".toList ≠ "[INFO]  c.ext:7: ".toList := by
  exact ⟨rfl, by decide⟩

/-- C6 witness: the amended claim at `"/a/b/c.ext"` (= `"/a/b" ++ "/" ++
"c.ext"`), at a separator-free file name and at line 7. -/
theorem file_rendering_amended_witness :
    formatHeader [] t2024 [] (Lshortfile : Int) "[INFO]  ".toList
        ("/a/b".toList ++ '/' :: "c.ext".toList) 7 =
      some ([] ++ [] ++ "[INFO]  ".toList ++ "c.ext".toList ++ [':'] ++ digitsChars 7 ++ [':', ' ']) ∧
    formatHeader [] t2024 [] (Lshortfile : Int) "[INFO]  ".toList "c.ext".toList 7 =
      some ([] ++ [] ++ "[INFO]  ".toList ++ "c.ext".toList ++ [':'] ++ digitsChars 7 ++ [':', ' ']) ∧
    formatHeader [] t2024 [] (Llongfile : Int) "[INFO]  ".toList
        ("/a/b".toList ++ '/' :: "c.ext".toList) 7 =
      some ([] ++ [] ++ "[INFO]  ".toList ++ ("/a/b".toList ++ '/' :: "c.ext".toList) ++ [':'] ++
        digitsChars 7 ++ [':', ' ']) ∧
    decValue (digitsChars 7) = 7 :=
  file_rendering_amended [] [] "[INFO]  ".toList t2024 "/a/b".toList "c.ext".toList
    "c.ext".toList 7 (by decide) (by decide) (by decide) (by norm_num)

/-- C7: acquiring a pooled buffer resets its length to zero and preserves
its capacity; releasing clears the buffer (dropping its backing storage,
capacity included) exactly when its capacity exceeds `64<<10` bytes, and
otherwise returns it unchanged, capacity intact. -/
theorem buffer_pool_spec (p : Buf) :
    getBuffer p = { data := [], cap := p.cap } ∧
    (64 * 1024 < p.cap → putBuffer p = { data := [], cap := 0 }) ∧
    (p.cap ≤ 64 * 1024 → putBuffer p = p) := by
  refine ⟨rfl, ?_, ?_⟩
  · intro h
    unfold putBuffer
    rw [if_pos h]
  · intro h
    unfold putBuffer
    rw [if_neg (by omega)]

/-- C8: for every level value the rendered tag is one of the four
fixed-width 8-byte strings, and every value other than `DEBUG`, `INFO` and
`ERROR` renders the placeholder `"[?????] "` — the tag selection is a total
function and unrecognized levels cause no failure. -/
theorem level_tag_total (level : Nat) :
    (levelString level).length = 8 ∧
    (levelString level = "[DEBUG] ".toList ∨ levelString level = "[INFO]  ".toList ∨
      levelString level = "[ERROR] ".toList ∨ levelString level = "[?????] ".toList) ∧
    (level ≠ DEBUG → level ≠ INFO → level ≠ ERROR →
      levelString level = "[?????] ".toList) := by
  refine ⟨?_, levelString_cases level, ?_⟩
  · rcases levelString_cases level with h | h | h | h <;> rw [h] <;> rfl
  · intro h0 h1 h2
    unfold levelString
    rw [if_neg h0, if_neg h1, if_neg h2]

/-- C9: for every `i` in Go `int` range and every width the header
formatter passes (−1, 2, 4 or 6), `itoa` terminates without the 20-byte
scratch array ever being indexed out of bounds (the run returns `some`),
and appends exactly the decimal digits of `i` (their base-10 value is `i`)
right-justified and zero-padded to `max(width, digit count)` bytes, with no
padding at width −1. -/
theorem itoa_safe_and_correct (i : Nat) (wid : Int)
    (hw : wid = -1 ∨ wid = 2 ∨ wid = 4 ∨ wid = 6) (hi : i < 2 ^ 63) :
    itoa i wid =
      some (List.replicate ((max wid 1).toNat - numDigits i) '0' ++ digitsChars i) ∧
    (List.replicate ((max wid 1).toNat - numDigits i) '0' ++ digitsChars i).length =
      max ((max wid 1).toNat) (numDigits i) ∧
    decValue (digitsChars i) = i ∧
    (wid = -1 → itoa i wid = some (digitsChars i)) := by
  have hnd : numDigits i ≤ 19 :=
    numDigits_le_of_lt_pow (by norm_num) (lt_trans hi (by norm_num))
  have hpos := numDigits_pos i
  have hwN : (max wid 1).toNat ≤ 6 := by
    rcases hw with h | h | h | h <;> subst h <;> decide
  refine ⟨itoa_eq i wid (by omega), ?_, decValue_digitsChars i, ?_⟩
  · simp only [List.length_append, List.length_replicate, digitsChars_length]
    omega
  · intro h
    subst h
    exact itoa_unpadded hi

/-- C9 witness: `itoa` at `i = 987`, width 2. -/
theorem itoa_safe_and_correct_witness :
    itoa 987 2 =
      some (List.replicate ((max (2 : Int) 1).toNat - numDigits 987) '0' ++ digitsChars 987) ∧
    (List.replicate ((max (2 : Int) 1).toNat - numDigits 987) '0' ++ digitsChars 987).length =
      max ((max (2 : Int) 1).toNat) (numDigits 987) ∧
    decValue (digitsChars 987) = 987 ∧
    ((2 : Int) = -1 → itoa 987 2 = some (digitsChars 987)) :=
  itoa_safe_and_correct 987 2 (by norm_num) (by norm_num)

/-- C10: a path whose only separator is its first character is rendered
unchanged under the short-file flag — the scan loop runs `i > 0` only, so
index 0 is never examined and truncation happens only at separators in
strictly positive positions. -/
theorem index_zero_separator_kept (buf0 pfx levelStr : List Char) (t : GoTime)
    (b : List Char) (line : Nat) (hb : '/' ∉ b) (hline : line < 2 ^ 63) :
    shortName ('/' :: b) = '/' :: b ∧
    formatHeader buf0 t pfx (Lshortfile : Int) levelStr ('/' :: b) line =
      some (buf0 ++ pfx ++ levelStr ++ ('/' :: b) ++ [':'] ++ digitsChars line ++ [':', ' ']) := by
  have hsn : shortName ('/' :: b) = '/' :: b := by
    apply shortName_no_slash
    intro c hc he
    exact hb (he ▸ hc)
  have hA : hasFlag (Lshortfile : Int) (Ldate ||| Ltime ||| Lmicroseconds) = false := by decide
  have hF : hasFlag (Lshortfile : Int) (Lshortfile ||| Llongfile) = true := by decide
  have hS : hasFlag (Lshortfile : Int) Lshortfile = true := by decide
  refine ⟨hsn, ?_⟩
  simp [formatHeader, hA, hF, hS, itoa_unpadded hline, hsn]

/-- C10 witness: the path `"/c.ext"` is kept whole by the truncation scan. -/
theorem index_zero_separator_kept_witness :
    shortName ('/' :: "c.ext".toList) = '/' :: "c.ext".toList ∧
    formatHeader [] t2024 [] (Lshortfile : Int) "[INFO]  ".toList ('/' :: "c.ext".toList) 7 =
      some ([] ++ [] ++ "[INFO]  ".toList ++ ('/' :: "c.ext".toList) ++ [':'] ++
        digitsChars 7 ++ [':', ' ']) :=
  index_zero_separator_kept [] [] "[INFO]  ".toList t2024 "c.ext".toList 7
    (by decide) (by norm_num)

end GoLog
